import Mathlib

/-!
# mjolnir: a shallow embedding of `mjolnir.c`

The file follows the C source top to bottom.

* Bytes and characters are natural numbers (`'a'` is 97, `'/'` is 47); a C
  string is the list of its bytes without the terminating NUL.
* `int` is 32 bits wide and `size_t` 64 bits wide (LP64); conversions between
  them wrap, which `toInt32` and `toSizeT` make explicit.
* The environment (the values `rand()` returns, the value of the global
  `interrupted` at each poll, the success of each `mmap` and `fsync`) is an
  `Env` of oracles; everything the program changes lives in a `World` that the
  functions pass along explicitly: the file system, the counters into the
  oracles, the number of open descriptors and live mappings, and a log of the
  system calls that were made.
* `exit` and a faulting `memcpy` end the whole run; `Outcome` tells them from
  an ordinary `return`.
* `printf`, `show_progress` and the `sigaction` calls have no effect on the
  state modelled here and are left out; `err` is kept as a log entry.
-/

namespace Mjolnir

/-! ## Constants and machine integers -/

/-- The length of `randbuf` in bytes (`#define BUFLEN 0x80000`). -/
def BUFLEN : Nat := 0x80000

/-- The number of times the file is overwritten (`#define LOOPS 4`). -/
def LOOPS : Nat := 4

/-- Conversion to a 32-bit two's-complement `int`: the value modulo `2^32`
that lies in `[-2^31, 2^31)`. -/
def toInt32 (x : Int) : Int := (x + 2147483648) % 4294967296 - 2147483648

/-- Conversion to a 64-bit `size_t`: the value modulo `2^64`. -/
def toSizeT (x : Int) : Nat := (x % 18446744073709551616).toNat

/-- The operator `|` on two `int` values: the bitwise or of their 32-bit
two's-complement representations. -/
def orInt32 (a b : Int) : Int :=
  toInt32 ((Nat.lor (a % 4294967296).toNat (b % 4294967296).toNat : Nat) : Int)

/-! ## Memory operations -/

/-- The call `memset(map, c, len)`: the first `len` bytes of the region become `c`. -/
def memset (map : List Nat) (c : Nat) (len : Nat) : List Nat :=
  List.replicate len c ++ map.drop len

/-- The call `memcpy(map + offset, src, n)`: `none` when the call reads past the
end of `src` or writes outside the region (the C program faults or has
undefined behaviour there). -/
def memcpy (map : List Nat) (offset : Int) (src : List Nat) (n : Nat) : Option (List Nat) :=
  if 0 ≤ offset ∧ offset.toNat + n ≤ map.length ∧ n ≤ src.length then
    some (map.take offset.toNat ++ src.take n ++ map.drop (offset.toNat + n))
  else none

/-- The loop of the random pass (lines 190-198), over any kind of memory `M`
with a copy operation `cpy m offset n` that stands for
`memcpy((char *)map + offset, randbuf, remaining)`:

    while (remaining == BUFLEN) {
        if (((signed)len - offset) < remaining)
            remaining = len-offset;
        memcpy((char *)map + offset, randbuf, remaining);
        offset += remaining;
    }

`remaining` and `offset` are `int`, `len` is a `size_t`. The first argument
bounds the number of iterations; `none` is a faulting copy or an exhausted
bound. -/
def tileLoop {M : Type} (cpy : M → Int → Nat → Option M) (len : Nat) :
    Nat → Int → Int → M → Option M
  | 0, remaining, _, m => if remaining = (BUFLEN : Int) then none else some m
  | fuel + 1, remaining, offset, m =>
    if remaining = (BUFLEN : Int) then
      let remaining1 : Int :=
        if toInt32 (toInt32 (len : Int) - offset) < remaining then
          toInt32 ((len : Int) - offset)
        else remaining
      match cpy m offset (toSizeT remaining1) with
      | none => none
      | some m1 => tileLoop cpy len fuel remaining1 (toInt32 (offset + remaining1)) m1
    else some m

/-- The number of iterations granted to `tileLoop`; `tileLoop_enough` shows
that the loop never needs more. -/
def tileFuel (len : Nat) : Nat := len / BUFLEN + 1

/-- A memory that only records the copies made: destination offset and length. -/
def recordCopy (acc : List (Int × Nat)) (offset : Int) (n : Nat) : Option (List (Int × Nat)) :=
  some (acc ++ [(offset, n)])

/-- The `memcpy` calls of the random pass on a file of `len` bytes, in order. -/
def randomCopies (len : Nat) : Option (List (Int × Nat)) :=
  tileLoop recordCopy len (tileFuel len) (BUFLEN : Int) 0 []

/-- The random pass on the mapped region: `remaining = BUFLEN; offset = 0;`
followed by the loop. -/
def randomPass (map randbuf : List Nat) (len : Nat) : Option (List Nat) :=
  tileLoop (fun m offset n => memcpy m offset randbuf n) len (tileFuel len) (BUFLEN : Int) 0 map

/-- The body of one pass (lines 176-207) for pass index `i`: the new region
and the new random buffer; `none` when the random pass faults. -/
def doPass (i len : Nat) (map randbuf : List Nat) : Option (List Nat × List Nat) :=
  if i % 3 = 0 then some (memset map 0 len, randbuf)
  else if i % 3 = 1 then some (memset map 255 len, randbuf)
  else
    match randomPass map randbuf len with
    | none => none
    | some map1 =>
      some (map1, if i < LOOPS - 2 then randbuf.map (fun b => 255 - b) else randbuf)

/-! ## The file system and the state of the run -/

/-- A path: the bytes of a C string. -/
abbrev Path := List Nat

/-- An entry of the file system: a regular file with its bytes and whether it
can be opened read-write, or a directory. -/
inductive Node
  | file (content : List Nat) (rw : Bool)
  | dir
  deriving DecidableEq

/-- The file system: the entry stored under each path. The entries of a
directory `d` are the paths `d/name`. -/
abbrev FS := List (Path × Node)

/-- The entry stored under a path, if any. -/
def lookup : FS → Path → Option Node
  | [], _ => none
  | (q, n) :: fs, p => if q = p then some n else lookup fs p

/-- The file system without the entry under a path. -/
def remove (fs : FS) (p : Path) : FS :=
  fs.filter (fun e => decide (e.1 ≠ p))

/-- The file system after the bytes of the regular file under a path were
replaced (a store through a shared mapping). -/
def write : FS → Path → List Nat → FS
  | [], _, _ => []
  | (q, Node.file c rw) :: fs, p, content =>
    (q, Node.file (if q = p then content else c) rw) :: write fs p content
  | (q, Node.dir) :: fs, p, content => (q, Node.dir) :: write fs p content

/-- The name of `p` inside directory `d`, when `p` is a direct entry of `d`. -/
def childName (d p : Path) : Option Path :=
  if (d ++ [47]).isPrefixOf p then
    let name := p.drop (d.length + 1)
    if name ≠ [] ∧ 47 ∉ name then some name else none
  else none

/-- The names `readdir` yields for a directory: `.`, `..` and its entries. -/
def readdir (fs : FS) (d : Path) : List Path :=
  [[46], [46, 46]] ++ fs.filterMap (fun e => childName d e.1)

/-- The call `access(path, F_OK)`. -/
def sys_access (fs : FS) (p : Path) : Int :=
  if (lookup fs p).isSome then 0 else -1

/-- The call `rename(old, new)` for a source that is not a directory, with its
POSIX meaning: an existing entry under `new` is replaced. It fails when `old`
does not exist or `new` is a directory. `rename_del` reaches `rename` only
with a path that is not a directory; a directory source is reported as a
failure here. -/
def sys_rename (fs : FS) (old new : Path) : Int × FS :=
  match lookup fs old with
  | some (Node.file c rw) =>
    match lookup fs new with
    | some Node.dir => (-1, fs)
    | _ => (0, (new, Node.file c rw) :: remove (remove fs old) new)
  | _ => (-1, fs)

/-- The call `unlink(path)`: removes a regular file. -/
def sys_unlink (fs : FS) (p : Path) : Int × FS :=
  match lookup fs p with
  | some (Node.file _ _) => (0, remove fs p)
  | _ => (-1, fs)

/-- The call `rmdir(path)`: removes an empty directory. -/
def sys_rmdir (fs : FS) (p : Path) : Int × FS :=
  match lookup fs p with
  | some Node.dir =>
    if fs.all (fun e => (childName p e.1).isNone) then (0, remove fs p) else (-1, fs)
  | _ => (-1, fs)

/-- The system calls and reports the run makes, as they are logged. -/
inductive Event
  | pass (i : Nat) (map : List Nat)
  | fsync (i : Nat) (ok : Bool)
  | munmap
  | close
  | exit (status : Int)
  | rename (old new : Path) (ok : Bool)
  | unlink (path : Path) (ok : Bool)
  | rmdir (path : Path) (ok : Bool)
  | err (path : Path)
  deriving DecidableEq

/-- What the program cannot control: the value of each `rand()` call, the
value of the global `interrupted` at each poll, and whether each `mmap` and
each `fsync` succeeds, all in call order; and the constant `PATH_MAX` of the
platform's `limits.h` (4096 on Linux), which the source does not define. -/
structure Env where
  rand : Nat → Nat
  interrupted : Nat → Bool
  mmapOk : Nat → Bool
  fsyncOk : Nat → Bool
  PATH_MAX : Nat

/-- The state the program changes: the file system, how many times each
oracle of the environment was consulted, the number of open file descriptors
and of live mappings, and the log. -/
structure World where
  fs : FS
  nrand : Nat
  npoll : Nat
  nmmap : Nat
  nfsync : Nat
  fds : Nat
  maps : Nat
  log : List Event
  deriving DecidableEq

/-- How a function ends: it returns a value, the process exits, the process
faults in `memcpy`, or the recursion bound of the model is exhausted. -/
inductive Outcome
  | ret (v : Int)
  | exit (status : Int)
  | crash
  | nofuel
  deriving DecidableEq

/-! ## shred_file -/

/-- The `for (i = 0; i < LOOPS; i++)` loop of `shred_file` (lines 165-211);
the first argument is the number of iterations still to run, so the pass
index is `LOOPS` minus it. The result is `none` when the loop runs to its end
and the outcome when it leaves the function early. -/
def passLoop (env : Env) (path : Path) (len : Nat) :
    Nat → World → List Nat → List Nat → Option Outcome × World
  | 0, w, _, _ => (none, w)
  | n + 1, w, map, randbuf =>
    let i := LOOPS - (n + 1)
    if env.interrupted w.npoll then
      (some (Outcome.exit 0),
        { w with npoll := w.npoll + 1, maps := w.maps - 1,
                 log := w.log ++ [Event.munmap, Event.exit 0] })
    else
      match doPass i len map randbuf with
      | none => (some Outcome.crash, { w with npoll := w.npoll + 1 })
      | some (map1, randbuf1) =>
        passLoop env path len n
          { w with npoll := w.npoll + 1, nfsync := w.nfsync + 1,
                   fs := write w.fs path map1,
                   log := w.log ++ [Event.pass i map1, Event.fsync i (env.fsyncOk w.nfsync)] }
          map1 randbuf1

/-- The end of `shred_file` (lines 213-217): when the loop ran to its end,
`munmap(map, len); close(fd); return 0;`, otherwise the outcome with which the
loop left the function. -/
def shred_file_end : Option Outcome × World → Outcome × World
  | (some o, w) => (o, w)
  | (none, w) =>
    (Outcome.ret 0,
      { w with maps := w.maps - 1, fds := w.fds - 1,
               log := w.log ++ [Event.munmap, Event.close] })

/-- The useful part of `randbuf`: `tofill = BUFLEN < len ? BUFLEN : len`. -/
def tofill (len : Nat) : Nat := if BUFLEN < len then BUFLEN else len

/-- The random buffer after `for (i = 0; i < tofill; i++) randbuf[i] = rand() % 255;`
when `nrand` calls of `rand()` were made before. -/
def fillRandbuf (env : Env) (nrand n : Nat) : List Nat :=
  (List.range n).map (fun i => env.rand (nrand + i) % 255)

/-- The function `shred_file` (lines 126-218). -/
def shred_file (env : Env) (w : World) (path : Path) : Outcome × World :=
  match lookup w.fs path with
  | some (Node.file content true) =>
    let w1 := { w with fds := w.fds + 1 }
    let len := content.length
    if len = 0 then (Outcome.ret 0, w1)
    else
      let w2 := { w1 with nmmap := w1.nmmap + 1 }
      if env.mmapOk w1.nmmap then
        let randbuf := fillRandbuf env w2.nrand (tofill len)
        let w3 := { w2 with maps := w2.maps + 1, nrand := w2.nrand + tofill len }
        shred_file_end (passLoop env path len LOOPS w3 content randbuf)
      else (Outcome.ret (-1), w2)
  | _ => (Outcome.ret (-1), w)

/-! ## rename_del -/

/-- The function `is_dir`. -/
def is_dir (fs : FS) (p : Path) : Bool :=
  match lookup fs p with
  | some Node.dir => true
  | _ => false

/-- The position of the last occurrence of `c` (the call `strrchr`, as an offset). -/
def strrchr (s : Path) (c : Nat) : Option Nat :=
  match s with
  | [] => none
  | x :: xs =>
    match strrchr xs c with
    | some k => some (k + 1)
    | none => if x = c then some 0 else none

/-- The loop `for (i = file_offset; i < pathlen; i++) new_path[i] = (rand() % 26) + 'a';`
with `todo` iterations left and `nrand` calls of `rand()` made before. -/
def fillRandom (env : Env) : Nat → Nat → Nat → Path → Path
  | 0, _, _, new_path => new_path
  | todo + 1, i, nrand, new_path =>
    fillRandom env todo (i + 1) (nrand + 1) (new_path.set i (env.rand nrand % 26 + 97))

/-- The `while ((pathlen-file_offset) > 1)` loop of `rename_del` and the final
`unlink` (lines 248-261), by recursion on `pathlen`, which each iteration
lowers by one. The result is the return value, the content of the caller's
`path` buffer and the new state. -/
def renameLoop (env : Env) (file_offset : Nat) : Nat → World → Path → Path → Int × Path × World
  | 0, w, old_path, new_path =>
    let r := sys_unlink w.fs new_path
    (r.1, old_path, { w with fs := r.2, log := w.log ++ [Event.unlink new_path (decide (r.1 = 0))] })
  | pathlen + 1, w, old_path, new_path =>
    if (pathlen + 1) - file_offset > 1 then
      let filled := fillRandom env (pathlen + 1 - file_offset) file_offset w.nrand new_path
      let new_path1 := filled.take pathlen
      let r := sys_rename w.fs old_path new_path1
      let w1 := { w with nrand := w.nrand + (pathlen + 1 - file_offset), fs := r.2,
                         log := w.log ++ [Event.rename old_path new_path1 (decide (r.1 = 0))] }
      if r.1 ≠ 0 then (r.1, old_path, w1)
      else renameLoop env file_offset pathlen w1 new_path1 new_path1
    else
      let r := sys_unlink w.fs new_path
      (r.1, old_path, { w with fs := r.2, log := w.log ++ [Event.unlink new_path (decide (r.1 = 0))] })

/-- The function `rename_del` (lines 231-263). -/
def rename_del (env : Env) (w : World) (path : Path) : Int × Path × World :=
  let pathlen := path.length
  let file_offset := match strrchr path 47 with
    | some p => p + 1
    | none => 0
  if is_dir w.fs path then
    let r := sys_rmdir w.fs path
    (r.1, path, { w with fs := r.2, log := w.log ++ [Event.rmdir path (decide (r.1 = 0))] })
  else
    renameLoop env file_offset pathlen w path path

/-! ## shred_dir, shred and main -/

/-- Sequencing of two calls: when the first returns, the rest runs on its
return value and state; an `exit` or a fault ends the run at once. -/
def andThen (first : Outcome × World) (rest : Int → World → Outcome × World) :
    Outcome × World :=
  match first with
  | (Outcome.ret r, w) => rest r w
  | other => other

/-- The call `snprintf(filename, PATH_MAX, "%s/%s", path, name)`: the joined
path, cut to the `PATH_MAX - 1` bytes that fit before the terminating NUL. -/
def joinPath (env : Env) (path name : Path) : Path :=
  (path ++ [47] ++ name).take (env.PATH_MAX - 1)

/-- The `readdir` loop of `shred_dir` (lines 277-281) over the names still to
come, with the function to call on each entry. -/
def shred_dir_loop (env : Env) (shredf : World → Path → Outcome × World) (path : Path) :
    List Path → World → Int → Outcome × World
  | [], w, retval => (Outcome.ret retval, w)
  | name :: rest, w, retval =>
    if name ≠ [46] ∧ name ≠ [46, 46] then
      andThen (shredf w (joinPath env path name)) fun r w1 =>
        shred_dir_loop env shredf path rest w1 (orInt32 retval r)
    else shred_dir_loop env shredf path rest w retval

/-- The function `shred_dir` (lines 267-286); `closedir` succeeds. -/
def shred_dir (env : Env) (shredf : World → Path → Outcome × World) (w : World)
    (path : Path) : Outcome × World :=
  if is_dir w.fs path then
    andThen (shred_dir_loop env shredf path (readdir w.fs path) w 0) fun retval w1 =>
      (Outcome.ret (orInt32 retval 0), w1)
  else (Outcome.ret (-1), w)

/-- The second half of `(retval = f(path)) || (retval = rename_del(path))`
followed by `err(path)` on failure. -/
def rename_del_or_err (env : Env) (w : World) (path : Path) : Outcome × World :=
  let r := rename_del env w path
  if r.1 ≠ 0 then (Outcome.ret r.1, { r.2.2 with log := r.2.2.log ++ [Event.err r.2.1] })
  else (Outcome.ret r.1, r.2.2)

/-- The function `shred` (lines 290-310) with the global `recursive` as an
argument; the first numeric argument bounds the depth of the recursion
through `shred_dir`. -/
def shred (env : Env) (recursive : Bool) : Nat → World → Path → Outcome × World
  | 0, w, _ => (Outcome.nofuel, w)
  | fuel + 1, w, path =>
    if sys_access w.fs path = -1 then
      (Outcome.ret 0, { w with log := w.log ++ [Event.err path] })
    else if is_dir w.fs path then
      if recursive then
        andThen (shred_dir env (shred env recursive fuel) w path) fun r w1 =>
          if r ≠ 0 then (Outcome.ret r, { w1 with log := w1.log ++ [Event.err path] })
          else rename_del_or_err env w1 path
      else (Outcome.ret 0, w)
    else
      andThen (shred_file env w path) fun r w1 =>
        if r ≠ 0 then (Outcome.ret r, { w1 with log := w1.log ++ [Event.err path] })
        else rename_del_or_err env w1 path

/-- The loop `for (i = optind; i < argc; i++) retval |= shred(argv[i]);` of
`main` (lines 337-338) over the paths still to come. -/
def main_loop (env : Env) (recursive : Bool) (fuel : Nat) :
    List Path → World → Int → Outcome × World
  | [], w, retval => (Outcome.ret retval, w)
  | path :: rest, w, retval =>
    andThen (shred env recursive fuel w path) fun r w1 =>
      main_loop env recursive fuel rest w1 (orInt32 retval r)

/-- The function `main` after option parsing: `retval = 0`, the loop over the
paths, `return retval`. -/
def main (env : Env) (recursive : Bool) (fuel : Nat) (paths : List Path) (w : World) :
    Outcome × World :=
  main_loop env recursive fuel paths w 0

/-! ## Definitions used in the statements -/

/-- The copies the random pass is expected to make from offset `off` on when
`k` whole buffers still fit: `k` copies of `BUFLEN` bytes and a last copy of
the bytes that remain. -/
def tileSpec (len : Nat) : Nat → Nat → List (Int × Nat)
  | 0, off => [((off : Int), len - off)]
  | k + 1, off => ((off : Int), BUFLEN) :: tileSpec len k (off + BUFLEN)

/-- An environment without interrupts or failures; `rand()` yields 3, 10, 17, ... -/
def envDemo : Env :=
  { rand := fun n => 7 * n + 3, interrupted := fun _ => false,
    mmapOk := fun _ => true, fsyncOk := fun _ => true,
    PATH_MAX := 4096 }

/-- An environment in which every `fsync` fails. -/
def envFsyncFails : Env :=
  { rand := fun n => 7 * n + 3, interrupted := fun _ => false,
    mmapOk := fun _ => true, fsyncOk := fun _ => false,
    PATH_MAX := 4096 }

/-- An environment in which `interrupted` is clear at the first two polls
and set from the third on: SIGINT arrives during pass 1. -/
def envCancel : Env :=
  { rand := fun n => 7 * n + 3, interrupted := fun n => decide (2 ≤ n),
    mmapOk := fun _ => true, fsyncOk := fun _ => true,
    PATH_MAX := 4096 }

/-- An environment in which `mmap` fails. -/
def envNoMap : Env :=
  { rand := fun n => 7 * n + 3, interrupted := fun _ => false,
    mmapOk := fun _ => false, fsyncOk := fun _ => true,
    PATH_MAX := 4096 }

/-- An environment in which `rand()` always yields 23, the letter `x`. -/
def envCollide : Env :=
  { rand := fun _ => 23, interrupted := fun _ => false,
    mmapOk := fun _ => true, fsyncOk := fun _ => true,
    PATH_MAX := 4096 }

/-- A file system holding the file `f` of `2^32 + 5` bytes. -/
def worldLarge : World :=
  { fs := [([102], Node.file (List.replicate 4294967301 65) true)],
    nrand := 0, npoll := 0, nmmap := 0, nfsync := 0, fds := 0, maps := 0, log := [] }

/-- A file system holding the one-byte file `f`. -/
def worldOne : World :=
  { fs := [([102], Node.file [65] true)],
    nrand := 0, npoll := 0, nmmap := 0, nfsync := 0, fds := 0, maps := 0, log := [] }

/-- A file system holding the files `f` (three bytes) and `g` (one byte). -/
def worldTwo : World :=
  { fs := [([102], Node.file [65, 66, 67] true), ([103], Node.file [68] true)],
    nrand := 0, npoll := 0, nmmap := 0, nfsync := 0, fds := 0, maps := 0, log := [] }

/-- A file system holding the file `f`, which cannot be opened read-write. -/
def worldLocked : World :=
  { fs := [([102], Node.file [65] false)],
    nrand := 0, npoll := 0, nmmap := 0, nfsync := 0, fds := 0, maps := 0, log := [] }

/-- A file system holding the empty file `z`. -/
def worldEmptyFile : World :=
  { fs := [([122], Node.file [] true)],
    nrand := 0, npoll := 0, nmmap := 0, nfsync := 0, fds := 0, maps := 0, log := [] }

/-- A file system holding the files `ab` and `x` in the same directory. -/
def worldSiblings : World :=
  { fs := [([97, 98], Node.file [1] true), ([120], Node.file [2] true)],
    nrand := 0, npoll := 0, nmmap := 0, nfsync := 0, fds := 0, maps := 0, log := [] }

/-! ## The random pass -/

theorem toInt32_eq (x : Int) (h1 : -2147483648 ≤ x) (h2 : x < 2147483648) : toInt32 x = x := by
  unfold toInt32; omega

theorem toSizeT_natCast (n : Nat) (h : n < 18446744073709551616) : toSizeT (n : Int) = n := by
  unfold toSizeT; omega

theorem tileLoop_of_ne {M : Type} (cpy : M → Int → Nat → Option M) (len fuel : Nat)
    (remaining offset : Int) (m : M) (h : remaining ≠ (BUFLEN : Int)) :
    tileLoop cpy len fuel remaining offset m = some m := by
  cases fuel <;> simp [tileLoop, h]

theorem tileLoop_eq_foldlM {M : Type} (cpy : M → Int → Nat → Option M) (len : Nat)
    (hlen : len < 2147483648) :
    ∀ (k fuel off : Nat) (m : M), off + k * BUFLEN ≤ len → len < off + (k + 1) * BUFLEN →
      k + 1 ≤ fuel →
      tileLoop cpy len fuel (BUFLEN : Int) (off : Int) m
        = (tileSpec len k off).foldlM (fun m c => cpy m c.1 c.2) m := by
  intro k
  induction k with
  | zero =>
    intro fuel off m h1 h2 hf
    obtain ⟨f, rfl⟩ : ∃ f, fuel = f + 1 := ⟨fuel - 1, by omega⟩
    have hB : BUFLEN = 524288 := rfl
    have e1 : toInt32 (len : Int) = len := toInt32_eq _ (by omega) (by omega)
    have e2 : toInt32 ((len : Int) - off) = ((len - off : Nat) : Int) := by
      rw [toInt32_eq _ (by omega) (by omega)]; omega
    have e3 : ((len - off : Nat) : Int) < (BUFLEN : Int) := by omega
    have e4 : ((len - off : Nat) : Int) ≠ (BUFLEN : Int) := by omega
    simp only [tileLoop, if_true, e1, e2, e3, tileSpec, List.foldlM_cons, List.foldlM_nil]
    rw [toSizeT_natCast _ (by omega)]
    cases hc : cpy m off (len - off) with
    | none => simp [hc]
    | some m1 => simp [hc, tileLoop_of_ne _ _ _ _ _ _ e4]
  | succ k ih =>
    intro fuel off m h1 h2 hf
    obtain ⟨f, rfl⟩ : ∃ f, fuel = f + 1 := ⟨fuel - 1, by omega⟩
    have hB : BUFLEN = 524288 := rfl
    have e1 : toInt32 (len : Int) = len := toInt32_eq _ (by omega) (by omega)
    have hmul : (k + 1) * BUFLEN = k * BUFLEN + BUFLEN := by ring
    have hmul2 : (k + 1 + 1) * BUFLEN = k * BUFLEN + BUFLEN + BUFLEN := by ring
    have e2 : toInt32 ((len : Int) - off) = (len : Int) - off := toInt32_eq _ (by omega) (by omega)
    have e3 : ¬ ((len : Int) - off < (BUFLEN : Int)) := by omega
    have e5 : toInt32 ((off : Int) + (BUFLEN : Int)) = ((off + BUFLEN : Nat) : Int) := by
      rw [toInt32_eq _ (by omega) (by omega)]; push_cast; rfl
    simp only [tileLoop, if_true, e1, e2, e3, if_false, tileSpec, List.foldlM_cons, e5]
    rw [toSizeT_natCast _ (by omega)]
    cases hc : cpy m off BUFLEN with
    | none => simp [hc]
    | some m1 =>
      simp only [hc, Option.bind_eq_bind, Option.some_bind]
      exact ih f (off + BUFLEN) m1 (by omega) (by omega) (by omega)

theorem memcpy_spec (m randbuf : List Nat) (off n : Nat)
    (h1 : off + n ≤ m.length) (h2 : n ≤ randbuf.length) :
    ∃ r, memcpy m (off : Int) randbuf n = some r ∧ r.length = m.length ∧
      (∀ i, i < off → r[i]? = m[i]?) ∧
      (∀ i, off ≤ i → i < off + n → r[i]? = randbuf[i - off]?) ∧
      (∀ i, off + n ≤ i → r[i]? = m[i]?) := by
  refine ⟨m.take off ++ randbuf.take n ++ m.drop (off + n), ?_, ?_, ?_, ?_, ?_⟩
  · simp [memcpy, h1, h2]
  · simp only [List.length_append, List.length_take, List.length_drop]; omega
  · intro i hi
    rw [List.append_assoc, List.getElem?_append_left (by simp; omega),
      List.getElem?_take_of_lt hi]
  · intro i hi1 hi2
    rw [List.append_assoc, List.getElem?_append_right (by simp; omega),
      List.getElem?_append_left (by simp; omega)]
    have : (List.take off m).length = off := by simp; omega
    rw [this, List.getElem?_take_of_lt (by omega)]
  · intro i hi
    rw [List.getElem?_append_right (by simp; omega), List.getElem?_drop]
    congr 1
    simp only [List.length_append, List.length_take]
    omega

theorem foldlM_memcpy (randbuf : List Nat) (len : Nat) (hsrc : min BUFLEN len ≤ randbuf.length) :
    ∀ (k off : Nat) (m : List Nat), m.length = len → off + k * BUFLEN ≤ len →
      len < off + (k + 1) * BUFLEN →
      ∃ r, (tileSpec len k off).foldlM (fun m c => memcpy m c.1 randbuf c.2) m = some r ∧
        r.length = len ∧ (∀ i, i < off → r[i]? = m[i]?) ∧
        (∀ i, off ≤ i → i < len → r[i]? = randbuf[(i - off) % BUFLEN]?) := by
  intro k
  induction k with
  | zero =>
    intro off m hm h1 h2
    have hB : BUFLEN = 524288 := rfl
    obtain ⟨r, hr, hlen, ha, hb, _⟩ :=
      memcpy_spec m randbuf off (len - off) (by omega) (by omega)
    refine ⟨r, ?_, by omega, ha, ?_⟩
    · simp [tileSpec, hr]
    · intro i hi1 hi2
      rw [hb i hi1 (by omega), Nat.mod_eq_of_lt (by omega)]
  | succ k ih =>
    intro off m hm h1 h2
    have hB : BUFLEN = 524288 := rfl
    have hmul : (k + 1) * BUFLEN = k * BUFLEN + BUFLEN := by ring
    have hmul2 : (k + 1 + 1) * BUFLEN = k * BUFLEN + BUFLEN + BUFLEN := by ring
    obtain ⟨r1, hr1, hlen1, ha1, hb1, _⟩ :=
      memcpy_spec m randbuf off BUFLEN (by omega) (by omega)
    obtain ⟨r, hr, hlen, ha, hb⟩ := ih (off + BUFLEN) r1 (by omega) (by omega) (by omega)
    refine ⟨r, ?_, hlen, ?_, ?_⟩
    · simp only [tileSpec, List.foldlM_cons, hr1, Option.bind_eq_bind, Option.some_bind]
      exact hr
    · intro i hi
      rw [ha i (by omega), ha1 i hi]
    · intro i hi1 hi2
      by_cases hlt : i < off + BUFLEN
      · rw [ha i hlt, hb1 i hi1 hlt, Nat.mod_eq_of_lt (by omega)]
      · rw [hb i (by omega) hi2]
        have : i - off = (i - (off + BUFLEN)) + BUFLEN := by omega
        rw [this, Nat.add_mod_right]

theorem foldlM_recordCopy (cs acc : List (Int × Nat)) :
    cs.foldlM (fun m c => recordCopy m c.1 c.2) acc = some (acc ++ cs) := by
  induction cs generalizing acc with
  | nil => simp
  | cons c cs ih =>
    have hc : recordCopy acc c.1 c.2 = some (acc ++ [c]) := rfl
    rw [List.foldlM_cons, hc]
    simp only [Option.bind_eq_bind, Option.some_bind]
    rw [ih]
    simp

theorem tileSpec_eq (len : Nat) :
    ∀ (k off : Nat), off + k * BUFLEN ≤ len →
      tileSpec len k off
        = (List.range k).map (fun j => (((off + j * BUFLEN : Nat) : Int), BUFLEN))
            ++ [(((off + k * BUFLEN : Nat) : Int), len - (off + k * BUFLEN))] := by
  intro k
  induction k with
  | zero => intro off _; simp [tileSpec]
  | succ k ih =>
    intro off h
    have hmul : (k + 1) * BUFLEN = k * BUFLEN + BUFLEN := by ring
    rw [tileSpec, ih (off + BUFLEN) (by omega), List.range_succ_eq_map]
    simp only [List.map_cons, List.map_map, List.cons_append, Nat.zero_mul, Nat.add_zero]
    refine congrArg₂ _ rfl (congrArg₂ _ ?_ ?_)
    · apply List.map_congr_left
      intro j _
      simp only [Function.comp, Nat.succ_eq_add_one]
      have : off + BUFLEN + j * BUFLEN = off + (j + 1) * BUFLEN := by ring
      rw [this]
    · have : off + BUFLEN + k * BUFLEN = off + (k + 1) * BUFLEN := by ring
      rw [this]

/-- C2. For a file of `len` bytes with `BUFLEN < len < 2^31` and a random
buffer of `BUFLEN` bytes, the random pass ends and writes exactly the `len`
bytes of the region: byte `i` becomes `randbuf[i mod BUFLEN]`, and the copies
made are `len / BUFLEN` whole buffers at the multiples of `BUFLEN` followed
by one copy of the first `len mod BUFLEN` bytes (of 0 bytes when `BUFLEN`
divides `len`). -/
theorem randomPass_tiles (map randbuf : List Nat) (len : Nat)
    (hmap : map.length = len) (hbuf : randbuf.length = BUFLEN)
    (hlo : BUFLEN < len) (hhi : len < 2147483648) :
    ∃ r, randomPass map randbuf len = some r ∧ r.length = len ∧
      (∀ i, i < len → r[i]? = randbuf[i % BUFLEN]?) ∧
      randomCopies len = some
        ((List.range (len / BUFLEN)).map (fun j => (((j * BUFLEN : Nat) : Int), BUFLEN))
          ++ [(((len / BUFLEN * BUFLEN : Nat) : Int), len % BUFLEN)]) := by
  have hB : BUFLEN = 524288 := rfl
  have h1 : 0 + len / BUFLEN * BUFLEN ≤ len := by
    rw [Nat.zero_add]; exact Nat.div_mul_le_self len BUFLEN
  have h2 : len < 0 + (len / BUFLEN + 1) * BUFLEN := by
    rw [Nat.zero_add, Nat.mul_comm]; exact Nat.lt_mul_div_succ len (by omega)
  obtain ⟨r, hr, hlen, _, hb⟩ :=
    foldlM_memcpy randbuf len (by omega) (len / BUFLEN) 0 map hmap h1 h2
  refine ⟨r, ?_, hlen, ?_, ?_⟩
  · unfold randomPass tileFuel
    have := tileLoop_eq_foldlM (fun m offset n => memcpy m offset randbuf n) len hhi
      (len / BUFLEN) (len / BUFLEN + 1) 0 map h1 h2 (le_refl _)
    simp only [Nat.cast_zero] at this
    rw [this]; exact hr
  · intro i hi
    have := hb i (Nat.zero_le _) hi
    simpa using this
  · unfold randomCopies tileFuel
    have := tileLoop_eq_foldlM recordCopy len hhi
      (len / BUFLEN) (len / BUFLEN + 1) 0 [] h1 h2 (le_refl _)
    simp only [Nat.cast_zero] at this
    rw [this, foldlM_recordCopy, tileSpec_eq len _ 0 h1]
    simp only [List.nil_append, Nat.zero_add]
    have : len - len / BUFLEN * BUFLEN = len % BUFLEN := by
      have := Nat.div_add_mod len BUFLEN
      rw [Nat.mul_comm] at this
      omega
    rw [this]

/-- C2 (witness). A file of `BUFLEN + 1` bytes: one whole buffer and one more byte. -/
theorem randomPass_tiles_witness :
    (BUFLEN < BUFLEN + 1 ∧ BUFLEN + 1 < 2147483648) ∧
    ∃ r, randomPass (List.replicate (BUFLEN + 1) 255) (List.replicate BUFLEN 7) (BUFLEN + 1)
        = some r ∧
      r.length = BUFLEN + 1 ∧
      (∀ i, i < BUFLEN + 1 → r[i]? = (List.replicate BUFLEN 7)[i % BUFLEN]?) ∧
      randomCopies (BUFLEN + 1) = some
        ((List.range ((BUFLEN + 1) / BUFLEN)).map (fun j => (((j * BUFLEN : Nat) : Int), BUFLEN))
          ++ [((((BUFLEN + 1) / BUFLEN * BUFLEN : Nat) : Int), (BUFLEN + 1) % BUFLEN)]) :=
  ⟨⟨by decide, by decide⟩,
    randomPass_tiles (List.replicate (BUFLEN + 1) 255) (List.replicate BUFLEN 7) (BUFLEN + 1)
      (List.length_replicate _ _) (List.length_replicate _ _) (by decide) (by decide)⟩

theorem tileLoop_enough_aux {M : Type} (cpy : M → Int → Nat → Option M)
    (hcpy : ∀ m o n, ∃ m1, cpy m o n = some m1) (len : Nat) :
    ∀ (fuel : Nat) (off : Int) (m : M),
      (toInt32 ((len : Int) - off)).toNat / BUFLEN + 1 ≤ fuel →
      ∃ r, tileLoop cpy len fuel (BUFLEN : Int) off m = some r := by
  intro fuel
  induction fuel with
  | zero => intro off m h; exact absurd h (Nat.not_succ_le_zero _)
  | succ f ih =>
    intro off m h
    have hB : BUFLEN = 524288 := rfl
    have e1 : toInt32 (toInt32 (len : Int) - off) = toInt32 ((len : Int) - off) := by
      unfold toInt32; omega
    simp only [tileLoop, if_true, e1]
    by_cases hc : toInt32 ((len : Int) - off) < (BUFLEN : Int)
    · simp only [hc, if_true]
      obtain ⟨m1, hm1⟩ := hcpy m off (toSizeT (toInt32 ((len : Int) - off)))
      rw [hm1]
      exact ⟨m1, tileLoop_of_ne _ _ _ _ _ _ (by omega)⟩
    · simp only [hc, if_false]
      obtain ⟨m1, hm1⟩ := hcpy m off (toSizeT (BUFLEN : Int))
      rw [hm1]
      apply ih
      have e2 : toInt32 ((len : Int) - toInt32 (off + (BUFLEN : Int)))
          = toInt32 ((len : Int) - off) - (BUFLEN : Int) := by
        unfold toInt32 at hc ⊢; omega
      rw [e2]
      rw [hB] at h hc ⊢
      simp only [Nat.cast_ofNat] at hc ⊢
      omega

/-- Without a faulting copy the loop of the random pass ends within
`tileFuel len` iterations, whatever the file length. -/
theorem tileLoop_enough {M : Type} (cpy : M → Int → Nat → Option M)
    (hcpy : ∀ m o n, ∃ m1, cpy m o n = some m1) (len : Nat) (m : M) :
    ∃ r, tileLoop cpy len (tileFuel len) (BUFLEN : Int) 0 m = some r := by
  apply tileLoop_enough_aux cpy hcpy
  have hB : BUFLEN = 524288 := rfl
  unfold tileFuel toInt32
  have h1 : ((((len : Int) - 0 + 2147483648) % 4294967296 - 2147483648).toNat) ≤ len := by omega
  have h2 : ((((len : Int) - 0 + 2147483648) % 4294967296 - 2147483648).toNat) / BUFLEN
      ≤ len / BUFLEN := Nat.div_le_div_right h1
  omega

/-! ## The passes of shred_file -/

theorem lookup_write (fs : FS) (p q : Path) (c1 : List Nat) :
    lookup (write fs p c1) q
      = (lookup fs q).map (fun n =>
          match n with
          | Node.file c rw => Node.file (if q = p then c1 else c) rw
          | Node.dir => Node.dir) := by
  induction fs with
  | nil => simp [write, lookup]
  | cons e fs ih =>
    obtain ⟨k, n⟩ := e
    cases n with
    | file c rw =>
      by_cases hkq : k = q
      · subst hkq; simp [write, lookup]
      · simp [write, lookup, hkq, ih]
    | dir =>
      by_cases hkq : k = q
      · subst hkq; simp [write, lookup]
      · simp [write, lookup, hkq, ih]

theorem lookup_write_self (fs : FS) (p : Path) (c c1 : List Nat) (rw : Bool)
    (h : lookup fs p = some (Node.file c rw)) :
    lookup (write fs p c1) p = some (Node.file c1 rw) := by
  rw [lookup_write, h]; simp

theorem memset_length (map : List Nat) (c len : Nat) (h : map.length = len) :
    memset map c len = List.replicate len c := by
  unfold memset
  rw [List.drop_of_length_le (by omega)]
  simp

theorem memcpy_length (map src : List Nat) (offset : Int) (n : Nat) (r : List Nat)
    (h : memcpy map offset src n = some r) : r.length = map.length := by
  unfold memcpy at h
  split at h
  · rename_i hc
    obtain ⟨h0, h1, h2⟩ := hc
    injection h with h
    subst h
    simp only [List.length_append, List.length_take, List.length_drop]
    omega
  · cases h

theorem tileLoop_memcpy_length (src : List Nat) (len : Nat) :
    ∀ (fuel : Nat) (remaining offset : Int) (m r : List Nat),
      tileLoop (fun m offset n => memcpy m offset src n) len fuel remaining offset m = some r →
      r.length = m.length := by
  intro fuel
  induction fuel with
  | zero =>
    intro remaining offset m r h
    simp only [tileLoop] at h
    split at h
    · cases h
    · injection h with h; rw [h]
  | succ f ih =>
    intro remaining offset m r h
    simp only [tileLoop] at h
    split at h
    · split at h
      · cases h
      · rename_i m1 hm1
        rw [ih _ _ _ _ h, memcpy_length _ _ _ _ _ hm1]
    · injection h with h; rw [h]

theorem randomPass_length (map randbuf r : List Nat) (len : Nat)
    (h : randomPass map randbuf len = some r) : r.length = map.length :=
  tileLoop_memcpy_length randbuf len _ _ _ _ _ h

theorem passLoop_interrupted (env : Env) (path : Path) (len n : Nat) (fs : FS)
    (nrand npoll nmmap nfsync fds maps : Nat) (log : List Event)
    (map randbuf : List Nat) (h : env.interrupted npoll = true) :
    passLoop env path len (n + 1) ⟨fs, nrand, npoll, nmmap, nfsync, fds, maps, log⟩ map randbuf
      = (some (Outcome.exit 0),
          ⟨fs, nrand, npoll + 1, nmmap, nfsync, fds, maps - 1,
            log ++ [Event.munmap, Event.exit 0]⟩) := by
  simp [passLoop, h]

theorem passLoop_crash (env : Env) (path : Path) (len n : Nat) (fs : FS)
    (nrand npoll nmmap nfsync fds maps : Nat) (log : List Event)
    (map randbuf : List Nat) (h : env.interrupted npoll = false)
    (hp : doPass (LOOPS - (n + 1)) len map randbuf = none) :
    passLoop env path len (n + 1) ⟨fs, nrand, npoll, nmmap, nfsync, fds, maps, log⟩ map randbuf
      = (some Outcome.crash, ⟨fs, nrand, npoll + 1, nmmap, nfsync, fds, maps, log⟩) := by
  simp [passLoop, h, hp]

theorem passLoop_step (env : Env) (path : Path) (len n : Nat) (fs : FS)
    (nrand npoll nmmap nfsync fds maps : Nat) (log : List Event)
    (map randbuf map1 randbuf1 : List Nat) (h : env.interrupted npoll = false)
    (hp : doPass (LOOPS - (n + 1)) len map randbuf = some (map1, randbuf1)) :
    passLoop env path len (n + 1) ⟨fs, nrand, npoll, nmmap, nfsync, fds, maps, log⟩ map randbuf
      = passLoop env path len n
          ⟨write fs path map1, nrand, npoll + 1, nmmap, nfsync + 1, fds, maps,
            log ++ [Event.pass (LOOPS - (n + 1)) map1,
                    Event.fsync (LOOPS - (n + 1)) (env.fsyncOk nfsync)]⟩
          map1 randbuf1 := by
  simp [passLoop, h, hp]

theorem passLoop_done (env : Env) (path : Path) (len : Nat) (w : World)
    (map randbuf : List Nat) :
    passLoop env path len 0 w map randbuf = (none, w) := rfl

theorem doPass_zero (len : Nat) (map randbuf : List Nat) (h : map.length = len) :
    doPass 0 len map randbuf = some (List.replicate len 0, randbuf) := by
  simp [doPass, memset_length _ _ _ h]

theorem doPass_one (len : Nat) (map randbuf : List Nat) (h : map.length = len) :
    doPass 1 len map randbuf = some (List.replicate len 255, randbuf) := by
  simp [doPass, memset_length _ _ _ h]

theorem doPass_two (len : Nat) (map randbuf : List Nat) :
    doPass 2 len map randbuf = (randomPass map randbuf len).map (fun r => (r, randbuf)) := by
  cases h : randomPass map randbuf len <;> simp [doPass, h, LOOPS]

theorem doPass_three (len : Nat) (map randbuf : List Nat) (h : map.length = len) :
    doPass 3 len map randbuf = some (List.replicate len 0, randbuf) := by
  simp [doPass, memset_length _ _ _ h]

/-- An uncancelled run of `shred_file` on a readable, writable file of
positive length whose random pass yields `r`: the four passes, each followed
by its `fsync`, then `munmap` and `close`, whatever the `fsync` calls report. -/
theorem shred_file_run (env : Env) (w : World) (path : Path) (content r : List Nat)
    (hfile : lookup w.fs path = some (Node.file content true))
    (hlen : content.length ≠ 0)
    (hmap : env.mmapOk w.nmmap = true)
    (h0 : env.interrupted w.npoll = false)
    (h1 : env.interrupted (w.npoll + 1) = false)
    (h2 : env.interrupted (w.npoll + 2) = false)
    (h3 : env.interrupted (w.npoll + 3) = false)
    (hr : randomPass (List.replicate content.length 255)
            (fillRandbuf env w.nrand (tofill content.length)) content.length = some r) :
    shred_file env w path
      = (Outcome.ret 0,
          { fs := write (write (write (write w.fs path (List.replicate content.length 0)) path
                    (List.replicate content.length 255)) path r) path
                    (List.replicate content.length 0),
            nrand := w.nrand + tofill content.length,
            npoll := w.npoll + 4,
            nmmap := w.nmmap + 1,
            nfsync := w.nfsync + 4,
            fds := w.fds,
            maps := w.maps,
            log := w.log ++
              [Event.pass 0 (List.replicate content.length 0), Event.fsync 0 (env.fsyncOk w.nfsync),
               Event.pass 1 (List.replicate content.length 255),
               Event.fsync 1 (env.fsyncOk (w.nfsync + 1)),
               Event.pass 2 r, Event.fsync 2 (env.fsyncOk (w.nfsync + 2)),
               Event.pass 3 (List.replicate content.length 0),
               Event.fsync 3 (env.fsyncOk (w.nfsync + 3)),
               Event.munmap, Event.close] }) := by
  have hrl : r.length = content.length := by
    rw [randomPass_length _ _ _ _ hr]; simp
  unfold shred_file
  simp only [hfile, hlen, if_false, hmap, if_true]
  rw [show LOOPS = 3 + 1 from rfl,
    passLoop_step env path _ 3 _ _ _ _ _ _ _ _ _ _ _ _ h0 (doPass_zero _ _ _ rfl),
    passLoop_step env path _ 2 _ _ _ _ _ _ _ _ _ _ _ _ h1 (doPass_one _ _ _ (by simp)),
    passLoop_step env path _ 1 _ _ _ _ _ _ _ _ _ _ r _ h2
      (by rw [show LOOPS - (1 + 1) = 2 from rfl, doPass_two, hr]; rfl),
    passLoop_step env path _ 0 _ _ _ _ _ _ _ _ _ _ _ _ h3 (doPass_three _ _ _ hrl),
    passLoop_done]
  simp [shred_file_end, LOOPS, Nat.add_assoc]

theorem fillRandbuf_length (env : Env) (nrand n : Nat) : (fillRandbuf env nrand n).length = n := by
  simp [fillRandbuf]

/-- For every file shorter than `2^31` bytes the random pass ends without a
fault and leaves byte `i` equal to `randbuf[i mod BUFLEN]`; the buffer holds
`tofill len` bytes, as `shred_file` sets it up. -/
theorem randomPass_small (map randbuf : List Nat) (len : Nat)
    (hmap : map.length = len) (hbuf : randbuf.length = tofill len)
    (hhi : len < 2147483648) :
    ∃ r, randomPass map randbuf len = some r ∧ r.length = len ∧
      (∀ i, i < len → r[i]? = randbuf[i % BUFLEN]?) := by
  have hB : BUFLEN = 524288 := rfl
  have h1 : 0 + len / BUFLEN * BUFLEN ≤ len := by
    rw [Nat.zero_add]; exact Nat.div_mul_le_self len BUFLEN
  have h2 : len < 0 + (len / BUFLEN + 1) * BUFLEN := by
    rw [Nat.zero_add, Nat.mul_comm]; exact Nat.lt_mul_div_succ len (by omega)
  have hsrc : min BUFLEN len ≤ randbuf.length := by
    rw [hbuf]; unfold tofill; split <;> omega
  obtain ⟨r, hr, hlen, _, hb⟩ :=
    foldlM_memcpy randbuf len hsrc (len / BUFLEN) 0 map hmap h1 h2
  refine ⟨r, ?_, hlen, ?_⟩
  · unfold randomPass tileFuel
    have := tileLoop_eq_foldlM (fun m offset n => memcpy m offset randbuf n) len hhi
      (len / BUFLEN) (len / BUFLEN + 1) 0 map h1 h2 (le_refl _)
    simp only [Nat.cast_zero] at this
    rw [this]; exact hr
  · intro i hi
    have := hb i (Nat.zero_le _) hi
    simpa using this

/-- The four passes of an uncancelled run on a file of `L` bytes,
`0 < L < 2^31`: zeros, ones, the random buffer tiled across the `L` bytes,
zeros, in this order, each followed by its `fsync`; the call returns 0. -/
theorem shred_file_small (env : Env) (w : World) (path : Path) (content : List Nat)
    (hfile : lookup w.fs path = some (Node.file content true))
    (hlen : content.length ≠ 0)
    (hhi : content.length < 2147483648)
    (hmap : env.mmapOk w.nmmap = true)
    (hclear : ∀ j, j < 4 → env.interrupted (w.npoll + j) = false) :
    ∃ r : List Nat,
      r.length = content.length ∧
      (∀ i, i < content.length →
        r[i]? = (fillRandbuf env w.nrand (tofill content.length))[i % BUFLEN]?) ∧
      (shred_file env w path).1 = Outcome.ret 0 ∧
      (shred_file env w path).2.log = w.log ++
        [Event.pass 0 (List.replicate content.length 0), Event.fsync 0 (env.fsyncOk w.nfsync),
         Event.pass 1 (List.replicate content.length 255),
         Event.fsync 1 (env.fsyncOk (w.nfsync + 1)),
         Event.pass 2 r, Event.fsync 2 (env.fsyncOk (w.nfsync + 2)),
         Event.pass 3 (List.replicate content.length 0),
         Event.fsync 3 (env.fsyncOk (w.nfsync + 3)),
         Event.munmap, Event.close] := by
  obtain ⟨r, hr, hrl, hrt⟩ := randomPass_small (List.replicate content.length 255)
    (fillRandbuf env w.nrand (tofill content.length)) content.length
    (List.length_replicate _ _) (fillRandbuf_length _ _ _) hhi
  have h0 : env.interrupted w.npoll = false := hclear 0 (by omega)
  have hrun := shred_file_run env w path content r hfile hlen hmap h0
    (hclear 1 (by omega)) (hclear 2 (by omega)) (hclear 3 (by omega)) hr
  exact ⟨r, hrl, hrt, by rw [hrun], by rw [hrun]⟩

theorem shred_of_file (env : Env) (recursive : Bool) (fuel : Nat) (w : World) (path : Path)
    (content : List Nat) (rw : Bool) (hfile : lookup w.fs path = some (Node.file content rw)) :
    shred env recursive (fuel + 1) w path
      = andThen (shred_file env w path) fun r w1 =>
          if r ≠ 0 then (Outcome.ret r, { w1 with log := w1.log ++ [Event.err path] })
          else rename_del_or_err env w1 path := by
  simp [shred, sys_access, is_dir, hfile]

theorem andThen_exit (st : Int) (w : World) (rest : Int → World → Outcome × World) :
    andThen (Outcome.exit st, w) rest = (Outcome.exit st, w) := rfl

theorem andThen_ret (r : Int) (w : World) (rest : Int → World → Outcome × World) :
    andThen (Outcome.ret r, w) rest = rest r w := rfl

theorem main_loop_cons (env : Env) (recursive : Bool) (fuel : Nat) (path : Path)
    (rest : List Path) (w : World) (retval : Int) :
    main_loop env recursive fuel (path :: rest) w retval
      = andThen (shred env recursive fuel w path) fun r w1 =>
          main_loop env recursive fuel rest w1 (orInt32 retval r) := by
  rw [main_loop]

/-- C6. When `interrupted` is found set at the poll before pass `k` (and clear
at the polls before), `shred_file` has run exactly the passes `0 .. k-1`,
each followed by its `fsync`, unmaps the region and exits the process with
status 0; `shred` does not reach `rename_del` and `main` processes none of the
paths that follow. For `k = 3` the random pass (pass 2) must not have faulted. -/
theorem cancel_before_pass (env : Env) (recursive : Bool) (fuel : Nat) (w : World)
    (path : Path) (content r : List Nat) (rest : List Path) (retval : Int) (k : Nat)
    (hfile : lookup w.fs path = some (Node.file content true))
    (hlen : content.length ≠ 0)
    (hmap : env.mmapOk w.nmmap = true)
    (hk : k ≤ 3)
    (hclear : ∀ j, j < k → env.interrupted (w.npoll + j) = false)
    (hset : env.interrupted (w.npoll + k) = true)
    (hr : k = 3 → randomPass (List.replicate content.length 255)
            (fillRandbuf env w.nrand (tofill content.length)) content.length = some r) :
    ∃ w1 : World,
      shred_file env w path = (Outcome.exit 0, w1) ∧
      shred env recursive (fuel + 1) w path = (Outcome.exit 0, w1) ∧
      main_loop env recursive (fuel + 1) (path :: rest) w retval = (Outcome.exit 0, w1) ∧
      w1.log = w.log ++
        List.take (2 * k)
          [Event.pass 0 (List.replicate content.length 0), Event.fsync 0 (env.fsyncOk w.nfsync),
           Event.pass 1 (List.replicate content.length 255),
           Event.fsync 1 (env.fsyncOk (w.nfsync + 1)),
           Event.pass 2 r, Event.fsync 2 (env.fsyncOk (w.nfsync + 2))]
        ++ [Event.munmap, Event.exit 0] ∧
      w1.fs = List.foldl (fun fs m => write fs path m) w.fs
        (List.take k [List.replicate content.length 0, List.replicate content.length 255, r]) ∧
      w1.maps = w.maps ∧ w1.npoll = w.npoll + k + 1 := by
  have key : ∃ w1 : World, shred_file env w path = (Outcome.exit 0, w1) ∧
      w1.log = w.log ++
        List.take (2 * k)
          [Event.pass 0 (List.replicate content.length 0), Event.fsync 0 (env.fsyncOk w.nfsync),
           Event.pass 1 (List.replicate content.length 255),
           Event.fsync 1 (env.fsyncOk (w.nfsync + 1)),
           Event.pass 2 r, Event.fsync 2 (env.fsyncOk (w.nfsync + 2))]
        ++ [Event.munmap, Event.exit 0] ∧
      w1.fs = List.foldl (fun fs m => write fs path m) w.fs
        (List.take k [List.replicate content.length 0, List.replicate content.length 255, r]) ∧
      w1.maps = w.maps ∧ w1.npoll = w.npoll + k + 1 := by
    unfold shred_file
    simp only [hfile, hlen, if_false, hmap, if_true]
    rw [show LOOPS = 3 + 1 from rfl]
    interval_cases k
    · rw [Nat.add_zero] at hset
      rw [passLoop_interrupted env path _ 3 _ _ _ _ _ _ _ _ _ _ hset]
      exact ⟨_, rfl, by simp, by simp, by simp, by simp⟩
    · have h0 : env.interrupted w.npoll = false := hclear 0 (by omega)
      rw [passLoop_step env path _ 3 _ _ _ _ _ _ _ _ _ _ _ _ h0 (doPass_zero _ _ _ rfl),
        passLoop_interrupted env path _ 2 _ _ _ _ _ _ _ _ _ _ hset]
      exact ⟨_, rfl, by simp [LOOPS], by simp, by simp, by simp⟩
    · have h0 : env.interrupted w.npoll = false := hclear 0 (by omega)
      have h1 := hclear 1 (by omega)
      rw [passLoop_step env path _ 3 _ _ _ _ _ _ _ _ _ _ _ _ h0 (doPass_zero _ _ _ rfl),
        passLoop_step env path _ 2 _ _ _ _ _ _ _ _ _ _ _ _ h1 (doPass_one _ _ _ (by simp)),
        passLoop_interrupted env path _ 1 _ _ _ _ _ _ _ _ _ _ hset]
      exact ⟨_, rfl, by simp [LOOPS], by simp, by simp, by simp⟩
    · have h0 : env.interrupted w.npoll = false := hclear 0 (by omega)
      have h1 := hclear 1 (by omega)
      have h2 := hclear 2 (by omega)
      rw [passLoop_step env path _ 3 _ _ _ _ _ _ _ _ _ _ _ _ h0 (doPass_zero _ _ _ rfl),
        passLoop_step env path _ 2 _ _ _ _ _ _ _ _ _ _ _ _ h1 (doPass_one _ _ _ (by simp)),
        passLoop_step env path _ 1 _ _ _ _ _ _ _ _ _ _ r _ h2
          (by rw [show LOOPS - (1 + 1) = 2 from rfl, doPass_two, hr rfl]; rfl),
        passLoop_interrupted env path _ 0 _ _ _ _ _ _ _ _ _ _ hset]
      exact ⟨_, rfl, by simp [LOOPS], by simp, by simp, by simp⟩
  obtain ⟨w1, hsf, hlog, hfs, hmaps, hpoll⟩ := key
  refine ⟨w1, hsf, ?_, ?_, hlog, hfs, hmaps, hpoll⟩
  · rw [shred_of_file env recursive fuel w path content true hfile, hsf, andThen_exit]
  · rw [main_loop_cons, shred_of_file env recursive fuel w path content true hfile, hsf,
      andThen_exit, andThen_exit]

theorem shred_file_ret_zero_inv (env : Env) (w w1 : World) (path : Path) (content : List Nat)
    (hfile : lookup w.fs path = some (Node.file content true))
    (hlen : content.length ≠ 0)
    (hret : shred_file env w path = (Outcome.ret 0, w1)) :
    env.mmapOk w.nmmap = true ∧
    env.interrupted w.npoll = false ∧ env.interrupted (w.npoll + 1) = false ∧
    env.interrupted (w.npoll + 2) = false ∧ env.interrupted (w.npoll + 3) = false ∧
    ∃ r, randomPass (List.replicate content.length 255)
          (fillRandbuf env w.nrand (tofill content.length)) content.length = some r := by
  unfold shred_file at hret
  simp only [hfile, hlen, if_false] at hret
  cases hmap : env.mmapOk w.nmmap with
  | false => simp [hmap] at hret
  | true =>
    simp only [hmap, if_true] at hret
    rw [show LOOPS = 3 + 1 from rfl] at hret
    cases h0 : env.interrupted w.npoll with
    | true =>
      rw [passLoop_interrupted env path _ 3 _ _ _ _ _ _ _ _ _ _ h0] at hret
      simp [shred_file_end] at hret
    | false =>
      rw [passLoop_step env path _ 3 _ _ _ _ _ _ _ _ _ _ _ _ h0 (doPass_zero _ _ _ rfl)] at hret
      cases h1 : env.interrupted (w.npoll + 1) with
      | true =>
        rw [passLoop_interrupted env path _ 2 _ _ _ _ _ _ _ _ _ _ h1] at hret
        simp [shred_file_end] at hret
      | false =>
        rw [passLoop_step env path _ 2 _ _ _ _ _ _ _ _ _ _ _ _ h1
          (doPass_one _ _ _ (by simp))] at hret
        cases h2 : env.interrupted (w.npoll + 2) with
        | true =>
          rw [passLoop_interrupted env path _ 1 _ _ _ _ _ _ _ _ _ _ h2] at hret
          simp [shred_file_end] at hret
        | false =>
          cases hr : randomPass (List.replicate content.length 255)
              (fillRandbuf env w.nrand (tofill content.length)) content.length with
          | none =>
            rw [passLoop_crash env path _ 1 _ _ _ _ _ _ _ _ _ _ h2
              (by rw [show LOOPS - (1 + 1) = 2 from rfl, doPass_two, hr]; rfl)] at hret
            simp [shred_file_end] at hret
          | some r =>
            rw [passLoop_step env path _ 1 _ _ _ _ _ _ _ _ _ _ r _ h2
              (by rw [show LOOPS - (1 + 1) = 2 from rfl, doPass_two, hr]; rfl)] at hret
            cases h3 : env.interrupted (w.npoll + 3) with
            | true =>
              rw [passLoop_interrupted env path _ 0 _ _ _ _ _ _ _ _ _ _ h3] at hret
              simp [shred_file_end] at hret
            | false => exact ⟨rfl, rfl, rfl, rfl, rfl, r, rfl⟩

/-- C5 (amended). After a completed run of `shred_file` on a file of length
`L > 0` (the call returns 0 from the end of the function) the file holds `L`
bytes 0x00: the last pass, pass 3, is of the Zero kind and overwrites what the
random pass left. -/
theorem final_content_zero (env : Env) (w w1 : World) (path : Path) (content : List Nat)
    (hfile : lookup w.fs path = some (Node.file content true))
    (hlen : content.length ≠ 0)
    (hret : shred_file env w path = (Outcome.ret 0, w1)) :
    lookup w1.fs path = some (Node.file (List.replicate content.length 0) true) := by
  obtain ⟨hmap, h0, h1, h2, h3, r, hr⟩ :=
    shred_file_ret_zero_inv env w w1 path content hfile hlen hret
  rw [shred_file_run env w path content r hfile hlen hmap h0 h1 h2 h3 hr] at hret
  have hw := congrArg Prod.snd hret
  simp only at hw
  subst hw
  exact lookup_write_self _ _ _ _ _
    (lookup_write_self _ _ _ _ _ (lookup_write_self _ _ _ _ _
      (lookup_write_self _ _ _ _ _ hfile)))

/-- What the code does with the result of `fsync`: each pass is followed by
its `fsync` before the next pass begins, and whatever the four calls report,
an uncancelled run performs all four passes and returns 0, and `shred` goes
on to `rename_del`. -/
theorem fsync_result_ignored (env : Env) (recursive : Bool) (fuel : Nat) (w : World)
    (path : Path) (content r : List Nat)
    (hfile : lookup w.fs path = some (Node.file content true))
    (hlen : content.length ≠ 0)
    (hmap : env.mmapOk w.nmmap = true)
    (hclear : ∀ j, j < 4 → env.interrupted (w.npoll + j) = false)
    (hr : randomPass (List.replicate content.length 255)
            (fillRandbuf env w.nrand (tofill content.length)) content.length = some r) :
    ∃ w1 : World,
      shred_file env w path = (Outcome.ret 0, w1) ∧
      w1.log = w.log ++
        [Event.pass 0 (List.replicate content.length 0), Event.fsync 0 (env.fsyncOk w.nfsync),
         Event.pass 1 (List.replicate content.length 255),
         Event.fsync 1 (env.fsyncOk (w.nfsync + 1)),
         Event.pass 2 r, Event.fsync 2 (env.fsyncOk (w.nfsync + 2)),
         Event.pass 3 (List.replicate content.length 0),
         Event.fsync 3 (env.fsyncOk (w.nfsync + 3)),
         Event.munmap, Event.close] ∧
      shred env recursive (fuel + 1) w path = rename_del_or_err env w1 path := by
  have h0 : env.interrupted w.npoll = false := hclear 0 (by omega)
  have hrun := shred_file_run env w path content r hfile hlen hmap h0
    (hclear 1 (by omega)) (hclear 2 (by omega)) (hclear 3 (by omega)) hr
  refine ⟨_, hrun, rfl, ?_⟩
  rw [shred_of_file env recursive fuel w path content true hfile, hrun, andThen_ret]
  simp

/-! ## rename_del -/

/-- C9. With `int` 32 bits wide the random pass does not cover a large file:
on a file of `2^32 + 5` bytes its only `memcpy` copies 5 bytes to offset 0, so
the bytes from offset 5 on are skipped; on a file of `2^31` bytes the length
handed to `memcpy` is `2^64 - 2^31`, far above `BUFLEN`. -/
theorem randomCopies_large :
    randomCopies 4294967301 = some [(0, 5)] ∧
    randomCopies 2147483648 = some [(0, 18446744071562067968)] := by
  decide

theorem fillRandbuf_take_five :
    (fillRandbuf envDemo 0 BUFLEN).take 5 = [3, 10, 17, 24, 31] := by
  unfold fillRandbuf
  rw [← List.map_take, List.take_range]
  decide

theorem tileLoop_short {M : Type} (cpy : M → Int → Nat → Option M) (len fuel : Nat) (m m1 : M)
    (hc : toInt32 ((len : Int) - 0) < (BUFLEN : Int))
    (h : cpy m 0 (toSizeT (toInt32 ((len : Int) - 0))) = some m1) :
    tileLoop cpy len (fuel + 1) (BUFLEN : Int) 0 m = some m1 := by
  have e1 : toInt32 (toInt32 (len : Int) - 0) = toInt32 ((len : Int) - 0) := by
    unfold toInt32; omega
  simp only [tileLoop, if_true, e1, hc, h]
  exact tileLoop_of_ne _ _ _ _ _ _ (ne_of_lt hc)

theorem randomPass_large :
    randomPass (List.replicate 4294967301 255) (fillRandbuf envDemo 0 (tofill 4294967301))
        4294967301
      = some ([3, 10, 17, 24, 31] ++ List.replicate 4294967296 255) := by
  have htf : tofill 4294967301 = BUFLEN := by decide
  have hlenb : (fillRandbuf envDemo 0 BUFLEN).length = BUFLEN := by simp [fillRandbuf]
  have h5 : toSizeT (toInt32 (((4294967301 : Nat) : Int) - 0)) = 5 := by decide
  rw [htf]
  apply tileLoop_short _ 4294967301 8192 _ _ (by decide)
  show memcpy _ 0 _ (toSizeT (toInt32 (((4294967301 : Nat) : Int) - 0))) = _
  rw [h5]
  unfold memcpy
  rw [if_pos ⟨le_refl _, by rw [List.length_replicate]; decide, by rw [hlenb]; decide⟩,
    fillRandbuf_take_five, Int.toNat_zero, List.take_zero, List.nil_append, Nat.zero_add,
    List.drop_replicate]

/-- C1. On a file of `2^32 + 5` bytes a completed run of `shred_file` leaves,
after pass 2, five bytes of the random buffer followed by the `2^32` bytes
0xFF of pass 1: the region is not the random buffer tiled across it. -/
theorem pass_two_large_file :
    (shred_file envDemo worldLarge [102]).1 = Outcome.ret 0 ∧
    (shred_file envDemo worldLarge [102]).2.log =
      [Event.pass 0 (List.replicate 4294967301 0), Event.fsync 0 true,
       Event.pass 1 (List.replicate 4294967301 255), Event.fsync 1 true,
       Event.pass 2 ([3, 10, 17, 24, 31] ++ List.replicate 4294967296 255), Event.fsync 2 true,
       Event.pass 3 (List.replicate 4294967301 0), Event.fsync 3 true,
       Event.munmap, Event.close] := by
  have hlen : (List.replicate 4294967301 65).length = 4294967301 := List.length_replicate _ _
  have hrun := shred_file_run envDemo worldLarge [102] (List.replicate 4294967301 65)
    ([3, 10, 17, 24, 31] ++ List.replicate 4294967296 255) rfl
    (by rw [hlen]; decide) rfl rfl rfl rfl rfl (by rw [hlen]; exact randomPass_large)
  rw [hrun, hlen]
  exact ⟨rfl, rfl⟩

/-! ## Runs on concrete inputs -/

/-- C4. A batch whose first path does not exist: `shred` reports the error
with `err` but returns 0, so `main` returns 0 although a path produced an
error; the path that follows is still processed. A file that cannot be
opened, by contrast, makes `main` return -1. -/
theorem main_missing_path_returns_zero :
    (main envDemo false 1 [[110, 111, 112, 101], [102]] worldOne).1 = Outcome.ret 0 ∧
    (main envDemo false 1 [[110, 111, 112, 101], [102]] worldOne).2.log =
      [Event.err [110, 111, 112, 101],
       Event.pass 0 [0], Event.fsync 0 true, Event.pass 1 [255], Event.fsync 1 true,
       Event.pass 2 [3], Event.fsync 2 true, Event.pass 3 [0], Event.fsync 3 true,
       Event.munmap, Event.close, Event.unlink [102] true] ∧
    (main envDemo false 1 [[110, 111, 112, 101]] worldOne).1 = Outcome.ret 0 ∧
    (main envDemo false 1 [[102]] worldLocked).1 = Outcome.ret (-1) := by
  decide

/-- C5 (counterexample). On a one-byte file whose random buffer is `[3]` the
run completes, the random pass leaves `[3]`, and the final content is `[0]`. -/
theorem final_content_not_random :
    (shred_file envDemo worldOne [102]).1 = Outcome.ret 0 ∧
    randomPass [255] (fillRandbuf envDemo 0 (tofill 1)) 1 = some [3] ∧
    lookup (shred_file envDemo worldOne [102]).2.fs [102] = some (Node.file [0] true) := by
  decide

/-- C5 (witness). The one-byte file `f` after a completed run. -/
theorem final_content_zero_witness :
    lookup (shred_file envDemo worldOne [102]).2.fs [102]
      = some (Node.file (List.replicate [65].length 0) true) :=
  final_content_zero envDemo worldOne (shred_file envDemo worldOne [102]).2 [102] [65]
    (by decide) (by decide) (by decide)

/-- C7. Every `fsync` fails, yet `shred_file` runs the passes 1, 2 and 3
after the failure in pass 0 and returns 0, and `shred` goes on to unlink the
file and returns 0. A failure of `mmap` or of `open` in the same function, by
contrast, makes it return -1, and `shred` then reports the error and leaves
the file in place. -/
theorem fsync_failure_not_detected :
    shred envFsyncFails false 1 worldOne [102] =
      (Outcome.ret 0,
        { fs := [], nrand := 1, npoll := 4, nmmap := 1, nfsync := 4, fds := 0, maps := 0,
          log := [Event.pass 0 [0], Event.fsync 0 false, Event.pass 1 [255], Event.fsync 1 false,
                  Event.pass 2 [3], Event.fsync 2 false, Event.pass 3 [0], Event.fsync 3 false,
                  Event.munmap, Event.close, Event.unlink [102] true] }) ∧
    shred envNoMap false 1 worldOne [102] =
      (Outcome.ret (-1),
        { fs := [([102], Node.file [65] true)],
          nrand := 0, npoll := 0, nmmap := 1, nfsync := 0, fds := 1, maps := 0,
          log := [Event.err [102]] }) ∧
    shred envDemo false 1 worldLocked [102] =
      (Outcome.ret (-1),
        { fs := [([102], Node.file [65] false)],
          nrand := 0, npoll := 0, nmmap := 0, nfsync := 0, fds := 0, maps := 0,
          log := [Event.err [102]] }) := by
  decide

/-- An instance: the one-byte file `f` when every `fsync` fails. -/
theorem fsync_result_ignored_witness :
    ∃ w1 : World,
      shred_file envFsyncFails worldOne [102] = (Outcome.ret 0, w1) ∧
      w1.log = worldOne.log ++
        [Event.pass 0 (List.replicate [65].length 0),
         Event.fsync 0 (envFsyncFails.fsyncOk worldOne.nfsync),
         Event.pass 1 (List.replicate [65].length 255),
         Event.fsync 1 (envFsyncFails.fsyncOk (worldOne.nfsync + 1)),
         Event.pass 2 [3], Event.fsync 2 (envFsyncFails.fsyncOk (worldOne.nfsync + 2)),
         Event.pass 3 (List.replicate [65].length 0),
         Event.fsync 3 (envFsyncFails.fsyncOk (worldOne.nfsync + 3)),
         Event.munmap, Event.close] ∧
      shred envFsyncFails false (0 + 1) worldOne [102]
        = rename_del_or_err envFsyncFails w1 [102] :=
  fsync_result_ignored envFsyncFails false 0 worldOne [102] [65] [3]
    (by decide) (by decide) (by decide) (fun _ _ => rfl) (by decide)

/-- C6 (witness). The flag becomes set after pass 1: it is found set at the
poll before pass 2, in a batch of two paths. -/
theorem cancel_before_pass_witness :
    ∃ w1 : World,
      shred_file envCancel worldTwo [102] = (Outcome.exit 0, w1) ∧
      shred envCancel false (0 + 1) worldTwo [102] = (Outcome.exit 0, w1) ∧
      main_loop envCancel false (0 + 1) ([102] :: [[103]]) worldTwo 0 = (Outcome.exit 0, w1) ∧
      w1.log = worldTwo.log ++
        List.take (2 * 2)
          [Event.pass 0 (List.replicate [65, 66, 67].length 0),
           Event.fsync 0 (envCancel.fsyncOk worldTwo.nfsync),
           Event.pass 1 (List.replicate [65, 66, 67].length 255),
           Event.fsync 1 (envCancel.fsyncOk (worldTwo.nfsync + 1)),
           Event.pass 2 [], Event.fsync 2 (envCancel.fsyncOk (worldTwo.nfsync + 2))]
        ++ [Event.munmap, Event.exit 0] ∧
      w1.fs = List.foldl (fun fs m => write fs [102] m) worldTwo.fs
        (List.take 2 [List.replicate [65, 66, 67].length 0,
          List.replicate [65, 66, 67].length 255, []]) ∧
      w1.maps = worldTwo.maps ∧ w1.npoll = worldTwo.npoll + 2 + 1 :=
  cancel_before_pass envCancel false 0 worldTwo [102] [65, 66, 67] [] [[103]] 0 2
    (by decide) (by decide) (by decide) (by decide)
    (fun j hj => by
      have : j = 0 ∨ j = 1 := by omega
      rcases this with rfl | rfl <;> rfl)
    (by decide) (fun h => absurd h (by decide))

/-- C8. On a zero-length file `shred_file` returns 0 with the descriptor it
opened still open (the count of open descriptors went from 0 to 1), and so
it does with -1 when `mmap` fails; only the end of a full run closes it. -/
theorem early_return_leaves_fd_open :
    shred_file envDemo worldEmptyFile [122]
      = (Outcome.ret 0,
          { fs := [([122], Node.file [] true)],
            nrand := 0, npoll := 0, nmmap := 0, nfsync := 0, fds := 1, maps := 0, log := [] }) ∧
    shred_file envNoMap worldOne [102]
      = (Outcome.ret (-1),
          { fs := [([102], Node.file [65] true)],
            nrand := 0, npoll := 0, nmmap := 1, nfsync := 0, fds := 1, maps := 0, log := [] }) ∧
    (shred_file envDemo worldOne [102]).1 = Outcome.ret 0 ∧
    (shred_file envDemo worldOne [102]).2.fds = 0 := by
  decide

/-- C10. In a directory holding the target `ab` and a sibling `x`, when the
first letter drawn is `x`, `rename_del` renames `ab` onto `x` and unlinks it:
both calls succeed and the sibling is gone. -/
theorem rename_del_clobbers_sibling :
    lookup worldSiblings.fs [120] = some (Node.file [2] true) ∧
    (rename_del envCollide worldSiblings [97, 98]).1 = 0 ∧
    (rename_del envCollide worldSiblings [97, 98]).2.2.log =
      [Event.rename [97, 98] [120] true, Event.unlink [120] true] ∧
    lookup (rename_del envCollide worldSiblings [97, 98]).2.2.fs [120] = none := by
  decide

end Mjolnir
